import Mathlib

/-!
Verification of the banking-management repository: a shallow embedding of the
ledger operations (`database.py`) and of the merge-sort ordering routine
(`gui.py`), together with proofs and refutations of the specified properties.

Python floats are modelled as exact rationals (`Rat`); Python strings as
`String`.  A Python value that can reach a sort key or an amount field is
either a float or a string, modelled by `Value`.  Operations that can raise
an uncaught exception are modelled with `Option`, where `none` stands for a
propagated exception.
-/

namespace Banking

/-- A Python runtime value reaching a record field: a float (modelled as an
exact rational) or a string. -/
inductive Value where
  | num : Rat → Value
  | str : String → Value
deriving DecidableEq, Repr

/-- A record handed to the sorting routine: a tuple of field values, indexed
positionally as in the Python source. -/
abbrev Record : Type := List Value

/-- Model of Python's `str.strip()`: drop surrounding whitespace.  (Stated
on the character list so that it evaluates by kernel reduction.) -/
def pyStrip (s : String) : String :=
  String.mk (((s.data.dropWhile Char.isWhitespace).reverse.dropWhile
    Char.isWhitespace).reverse)

/-- Model of Python's `str.lower()` (ASCII, which covers every string this
program compares). -/
def pyLower (s : String) : String :=
  String.mk (s.data.map Char.toLower)

/-- Model of Python's `<` on strings: lexicographic by code point, a
strict prefix preceding its extensions. -/
def pyStrLtB : List Char → List Char → Bool
  | [], [] => false
  | [], _ :: _ => true
  | _ :: _, [] => false
  | c :: cs, d :: ds => if c < d then true else if d < c then false else pyStrLtB cs ds

/-- Numeric value of a decimal-digit string, most significant first. -/
def natOfDigits (l : List Char) : Nat :=
  l.foldl (fun n c => 10 * n + (c.toNat - 48)) 0

/-- Parses an unsigned decimal literal (`digits`, `digits.`, `.digits`,
`digits.digits`), the grammar Python's `float` accepts for plain decimal
strings.  Returns `none` when Python's `float` would raise `ValueError`. -/
def parseUnsigned (cs : List Char) : Option Rat :=
  let intPart := cs.takeWhile Char.isDigit
  let rest := cs.dropWhile Char.isDigit
  match rest with
  | [] => if intPart.isEmpty then none else some (natOfDigits intPart)
  | '.' :: fracCs =>
      if fracCs.all Char.isDigit && !(intPart.isEmpty && fracCs.isEmpty) then
        some ((natOfDigits intPart : Rat) +
          (natOfDigits fracCs : Rat) / ((10 : Rat) ^ fracCs.length))
      else none
  | _ => none

/-- Model of Python's `float(s)` on a string: strips surrounding whitespace,
then parses an optionally signed decimal literal.  (Scientific notation,
`inf` and `nan` spellings are outside the inputs this program produces and
are not modelled.) -/
def parseFloat (s : String) : Option Rat :=
  match (pyStrip s).data with
  | '-' :: rest => (parseUnsigned rest).map (fun x => -x)
  | '+' :: rest => parseUnsigned rest
  | cs => parseUnsigned cs

/-- Model of Python's `float(v)` on a field value: a float converts to
itself, a string is parsed; `none` models a raised `ValueError`. -/
def pyFloat : Value → Option Rat
  | .num x => some x
  | .str s => parseFloat s

/-- Model of the `try: left_val = float(left_val); right_val =
float(right_val); except: pass` block in `merge` (gui.py lines 50-55): the
left value is rebound first, so when only the right conversion fails the
left value stays converted while the right keeps its raw form. -/
def coercePair (l r : Value) : Value × Value :=
  match pyFloat l with
  | none => (l, r)
  | some x =>
      match pyFloat r with
      | none => (.num x, r)
      | some y => (.num x, .num y)

/-- Model of Python's `<` on two field values: numeric on two floats,
lexicographic on two strings, and a raised `TypeError` (`none`) on a
float/string mismatch. -/
def pyLt : Value → Value → Option Bool
  | .num x, .num y => some (decide (x < y))
  | .str a, .str b => some (pyStrLtB a.data b.data)
  | _, _ => none

/-- Model of Python's `>` on two field values, with the same `TypeError`
behaviour as `pyLt`. -/
def pyGt : Value → Value → Option Bool
  | .num x, .num y => some (decide (x > y))
  | .str a, .str b => some (pyStrLtB b.data a.data)
  | _, _ => none

/-- One comparison step of `merge` (gui.py lines 45-70): fetch the key field
of each record, numerically coerce the pair when the key index is 2 or 3,
then compare with `<` (ascending) or `>` (descending).  `some true` means
the left record is taken first; `none` models a propagated exception
(missing field or `TypeError`). -/
def takeLeft? (k : Nat) (asc : Bool) (a b : Record) : Option Bool :=
  match a[k]?, b[k]? with
  | some lv, some rv =>
      let p := if k = 2 ∨ k = 3 then coercePair lv rv else (lv, rv)
      if asc then pyLt p.1 p.2 else pyGt p.1 p.2
  | _, _ => none

/-- Model of `merge(left, right, key_index, ascending)` (gui.py lines
40-74): repeatedly take from whichever head the comparison selects — the
left head only on a strict comparison win — then append the unexhausted
remainder.  `none` models an exception propagating out of the loop. -/
def merge (k : Nat) (asc : Bool) : List Record → List Record → Option (List Record)
  | [], right => some right
  | l :: ls, [] => some (l :: ls)
  | l :: ls, r :: rs =>
      match takeLeft? k asc l r with
      | none => none
      | some true => (merge k asc ls (r :: rs)).map (fun t => l :: t)
      | some false => (merge k asc (l :: ls) rs).map (fun t => r :: t)
termination_by L R => L.length + R.length

/-- Model of `merge_sort(arr, key_index, ascending)` (gui.py lines 23-38):
return sequences of length at most one unchanged, otherwise split at the
midpoint, recursively sort both halves and merge them. -/
def merge_sort (arr : List Record) (k : Nat) (asc : Bool) : Option (List Record) :=
  if _h : arr.length ≤ 1 then some arr
  else
    match merge_sort (arr.take (arr.length / 2)) k asc,
          merge_sort (arr.drop (arr.length / 2)) k asc with
    | some ls, some rs => merge k asc ls rs
    | _, _ => none
termination_by arr.length
decreasing_by
  · simp only [List.length_take]
    omega
  · simp only [List.length_drop]
    omega

/-- A row of the `accounts` table (database.py lines 37-44): autoincrement
integer id, unique username, plain-text password, and a real balance. -/
structure Account where
  id : Nat
  username : String
  password : String
  balance : Rat
deriving DecidableEq, Repr

/-- A row of the `transactions` table (database.py lines 47-57).  The
autoincrement transaction id plays no role in any claim and is omitted. -/
structure Txn where
  account_id : Nat
  ttype : String
  amount : Rat
  timestamp : String
  description : String
deriving DecidableEq, Repr

/-- The persistent state: the `accounts` and `transactions` tables in
insertion order, plus the next autoincrement account id.  SQLite assigns
ids starting from 1. -/
structure DB where
  accounts : List Account
  txns : List Txn
  nextId : Nat
deriving DecidableEq, Repr

/-- A freshly initialised store: empty tables, first id 1. -/
def initDB : DB := ⟨[], [], 1⟩

/-- Model of `DatabaseManager.get_balance` (database.py lines 183-188):
the stored balance, or `0.00` when no row matches. -/
def get_balance (db : DB) (uid : Nat) : Rat :=
  match db.accounts.find? (fun a => a.id == uid) with
  | some a => a.balance
  | none => 0

/-- Model of `DatabaseManager.get_account_id_by_username` (database.py
lines 190-195). -/
def get_account_id_by_username (db : DB) (u : String) : Option Nat :=
  (db.accounts.find? (fun a => a.username == u)).map (fun a => a.id)

/-- Model of `DatabaseManager.update_balance` (database.py lines 247-251):
`UPDATE accounts SET balance = balance + ? WHERE id = ?` — every matching
row is adjusted; a non-matching id updates zero rows and reports nothing. -/
def update_balance (db : DB) (uid : Nat) (delta : Rat) : DB :=
  let f := fun (a : Account) =>
    if a.id == uid then { a with balance := a.balance + delta } else a
  { db with accounts := db.accounts.map f }

/-- Model of `DatabaseManager.record_transaction` (database.py lines
253-261).  The wall-clock timestamp taken from `datetime.now()` is supplied
as the `ts` parameter. -/
def record_transaction (db : DB) (uid : Nat) (ttype : String) (amount : Rat)
    (ts : String) (desc : String) : DB :=
  { db with txns := db.txns ++ [⟨uid, ttype, amount, ts, desc⟩] }

/-- Return value of `DatabaseManager.create_account`: Python `True` on
success, or an error-message string. -/
inductive PyRet where
  | tru
  | msg (s : String)
deriving DecidableEq, Repr

/-- The unvalidated insert path of `DatabaseManager.create_account`
(database.py lines 166-181), shared by the normal path and the
`is_initial_load=True` path of the CSV import: the `UNIQUE` constraint on
`username` rejects a duplicate with `IntegrityError`; otherwise the account
row is inserted with the given balance and the initial `Deposit`
transaction is appended. -/
def create_account_core (db : DB) (username password : String) (d : Rat)
    (ts : String) : DB × PyRet :=
  if db.accounts.any (fun a => a.username == username) then
    (db, .msg "Username already exists.")
  else
    let db1 : DB := { db with
      accounts := db.accounts ++ [⟨db.nextId, username, password, d⟩],
      nextId := db.nextId + 1 }
    (record_transaction db1 db.nextId "Deposit" d ts
      "Initial deposit on account creation", .tru)

/-- Model of `DatabaseManager.create_account` (database.py lines 153-181)
with `is_initial_load=False`: `float(initial_deposit)` must succeed and be
non-negative before the insert path runs. -/
def create_account (db : DB) (username password depositStr ts : String) :
    DB × PyRet :=
  match parseFloat depositStr with
  | none => (db, .msg "Initial deposit must be a valid number.")
  | some d =>
      if d < 0 then (db, .msg "Initial deposit cannot be negative.")
      else create_account_core db username password d ts

/-- Outcome reported to the user by a deposit / withdraw / transfer
handler: which message box the handler shows. -/
inductive TxOutcome where
  | invalidInput
  | invalidAmount
  | insufficientFunds
  | recipientNotFound
  | selfTransfer
  | ok
deriving DecidableEq, Repr

/-- Model of `DepositFrame.handle_deposit` (gui.py lines 647-670): parse
the amount (error on `ValueError`), reject a non-positive amount, otherwise
add to the balance and append a `Deposit` transaction. -/
def handle_deposit (db : DB) (uid : Nat) (amountStr ts : String) : DB × TxOutcome :=
  match parseFloat amountStr with
  | none => (db, .invalidInput)
  | some a =>
      if a ≤ 0 then (db, .invalidAmount)
      else
        let db1 := update_balance db uid a
        (record_transaction db1 uid "Deposit" a ts "", .ok)

/-- Model of `WithdrawFrame.handle_withdraw` (gui.py lines 697-724): parse,
reject non-positive amounts, reject amounts exceeding the current balance,
otherwise subtract and append a `Withdrawal` transaction of `-amount`. -/
def handle_withdraw (db : DB) (uid : Nat) (amountStr ts : String) : DB × TxOutcome :=
  match parseFloat amountStr with
  | none => (db, .invalidInput)
  | some a =>
      if a ≤ 0 then (db, .invalidAmount)
      else if a > get_balance db uid then (db, .insufficientFunds)
      else
        let db1 := update_balance db uid (-a)
        (record_transaction db1 uid "Withdrawal" (-a) ts "", .ok)

/-- Model of `TransferFrame.handle_transfer` (gui.py lines 755-798): parse,
reject non-positive amounts, resolve the stripped recipient username,
reject an unknown recipient, reject a self-transfer, reject amounts
exceeding the sender's balance, otherwise debit the sender, credit the
recipient and append the `Transfer (Out)` / `Transfer (In)` pair. -/
def handle_transfer (db : DB) (senderId : Nat) (senderName recipientEntry amountStr ts : String) :
    DB × TxOutcome :=
  let rname := pyStrip recipientEntry
  match parseFloat amountStr with
  | none => (db, .invalidInput)
  | some a =>
      if a ≤ 0 then (db, .invalidAmount)
      else
        match get_account_id_by_username db rname with
        | none => (db, .recipientNotFound)
        | some rid =>
            if senderId == rid then (db, .selfTransfer)
            else if a > get_balance db senderId then (db, .insufficientFunds)
            else
              let db1 := update_balance db senderId (-a)
              let db2 := update_balance db1 rid a
              let db3 := record_transaction db2 senderId "Transfer (Out)" (-a) ts
                ("Transfer to " ++ rname)
              (record_transaction db3 rid "Transfer (In)" a ts
                ("Transfer from " ++ senderName), .ok)

/-- Model of Python's `str.capitalize`: first character upper-cased, the
rest lower-cased (ASCII, which covers every input this program handles). -/
def pyCapitalize (s : String) : String :=
  match s.data with
  | [] => ""
  | c :: cs => String.mk (c.toUpper :: cs.map Char.toLower)

/-- One row of the first-run import CSV; a column missing from the file is
the empty string, as `row.get(..., "")` yields. -/
structure Row where
  username : String
  rtype : String
  amount : String
  description : String
  timestamp : String
deriving DecidableEq, Repr

/-- One iteration of the row loop in `DatabaseManager._load_initial_data`
(database.py lines 102-134): strip the fields, capitalize the type, skip
the row on an unparsable amount or an empty username/type, ensure the
account exists (creating it with password `default123` and balance 0 via
the unvalidated insert path), insert the transaction with the imported
type and (positive) amount, then adjust the balance by `+amount` only for
a case-insensitive `deposit` type and by `-amount` only for a
case-insensitive `withdraw` type — any other type moves no balance. -/
def importRow (db : DB) (row : Row) : DB :=
  let username := pyStrip row.username
  let tx_type := pyCapitalize (pyStrip row.rtype)
  let desc := pyStrip row.description
  let ts := pyStrip row.timestamp
  match parseFloat (pyStrip row.amount) with
  | none => db
  | some amount =>
      if username = "" ∨ tx_type = "" then db
      else
        let ensured :=
          match get_account_id_by_username db username with
          | some _ => db
          | none => (create_account_core db username "default123" 0 ts).1
        let aid := (get_account_id_by_username ensured username).getD 0
        let db2 := record_transaction ensured aid tx_type amount ts desc
        if pyLower tx_type = "deposit" then update_balance db2 aid amount
        else if pyLower tx_type = "withdraw" then update_balance db2 aid (-amount)
        else db2

/-- Model of `DatabaseManager._load_initial_data` (database.py lines
79-137): a no-op unless the transactions table is empty, otherwise the CSV
rows are imported in order.  File-existence and header checks are
presentation plumbing and the row list is taken directly. -/
def load_initial_data (db : DB) (rows : List Row) : DB :=
  if db.txns.length > 0 then db
  else rows.foldl importRow db

/-- The per-account transaction-amount total: the sum of the `amount`
fields of the transactions whose `account_id` is the given id. -/
def txnSum (db : DB) (uid : Nat) : Rat :=
  ((db.txns.filter (fun t => t.account_id == uid)).map (fun t => t.amount)).sum

/-- The specified ledger invariant: every stored balance equals the
transaction-amount total of its account. -/
def Inv (db : DB) : Prop :=
  ∀ a ∈ db.accounts, a.balance = txnSum db a.id

/-- One interactive ledger-affecting operation, as fired by the GUI: an
account registration, or a deposit / withdrawal / transfer issued for a
logged-in user (whose id therefore exists in the accounts table).  Each
handler already embeds its own rejection paths, which leave the state
unchanged. -/
inductive Step : DB → DB → Prop where
  | create (db : DB) (u p d ts : String) :
      Step db (create_account db u p d ts).1
  | deposit (db : DB) (uid : Nat) (s ts : String)
      (hin : ∃ a ∈ db.accounts, a.id = uid) :
      Step db (handle_deposit db uid s ts).1
  | withdraw (db : DB) (uid : Nat) (s ts : String)
      (hin : ∃ a ∈ db.accounts, a.id = uid) :
      Step db (handle_withdraw db uid s ts).1
  | transfer (db : DB) (sid : Nat) (sname rentry s ts : String)
      (hin : ∃ a ∈ db.accounts, a.id = sid) :
      Step db (handle_transfer db sid sname rentry s ts).1

/-! ## Generic correctness of the embedded merge sort

`merge_spec` and `merge_sort_spec` are proved once for an arbitrary
predicate `P` cutting out the records whose key fields make every
comparison succeed, and an arbitrary transitive order `le` that the
comparison decides.  Each claim instantiates them with its own key
domain. -/

theorem merge_sort_short {arr : List Record} {k : Nat} {asc : Bool}
    (h : arr.length ≤ 1) : merge_sort arr k asc = some arr := by
  rw [merge_sort]
  simp [h]

theorem merge_sort_rec {arr : List Record} {k : Nat} {asc : Bool}
    (h : ¬ arr.length ≤ 1) :
    merge_sort arr k asc =
      match merge_sort (arr.take (arr.length / 2)) k asc,
            merge_sort (arr.drop (arr.length / 2)) k asc with
      | some ls, some rs => merge k asc ls rs
      | _, _ => none := by
  rw [merge_sort]
  simp [h]

section MergeGeneric

variable {k : Nat} {asc : Bool} {P : Record → Prop} {le : Record → Record → Prop}

theorem merge_spec
    (Hc : ∀ a b, P a → P b → ∃ c, takeLeft? k asc a b = some c ∧
       (c = true → le a b) ∧ (c = false → le b a))
    (Htr : ∀ a b c, P a → P b → P c → le a b → le b c → le a c) :
    ∀ L R : List Record, (∀ x ∈ L, P x) → (∀ x ∈ R, P x) →
      L.Pairwise le → R.Pairwise le →
      ∃ out, merge k asc L R = some out ∧ out.Perm (L ++ R) ∧ out.Pairwise le := by
  intro L
  induction L with
  | nil =>
      intro R _ _ _ hRp
      exact ⟨R, by simp [merge], by simp, hRp⟩
  | cons l ls ihL =>
      intro R
      induction R with
      | nil =>
          intro hL _ hLp _
          exact ⟨l :: ls, by simp [merge], by simp, hLp⟩
      | cons r rs ihR =>
          intro hL hR hLp hRp
          have hPl : P l := hL l (by simp)
          have hPr : P r := hR r (by simp)
          obtain ⟨c, hc, hct, hcf⟩ := Hc l r hPl hPr
          have hLp' := List.pairwise_cons.mp hLp
          have hRp' := List.pairwise_cons.mp hRp
          cases c with
          | true =>
              obtain ⟨out, ho, hperm, hpw⟩ :=
                ihL (r :: rs) (fun x hx => hL x (by simp [hx])) hR hLp'.2 hRp
              refine ⟨l :: out, ?_, ?_, ?_⟩
              · simp [merge, hc, ho]
              · exact hperm.cons l
              · refine List.pairwise_cons.mpr ⟨?_, hpw⟩
                intro x hx
                have hx' : x ∈ ls ++ r :: rs := (hperm.mem_iff).mp hx
                rcases List.mem_append.mp hx' with h1 | h2
                · exact hLp'.1 x h1
                · rcases List.mem_cons.mp h2 with rfl | h3
                  · exact hct rfl
                  · exact Htr l r x hPl hPr (hR x (by simp [h3]))
                      (hct rfl) (hRp'.1 x h3)
          | false =>
              obtain ⟨out, ho, hperm, hpw⟩ :=
                ihR hL (fun x hx => hR x (by simp [hx])) hLp hRp'.2
              refine ⟨r :: out, ?_, ?_, ?_⟩
              · simp [merge, hc, ho]
              · exact (hperm.cons r).trans List.perm_middle.symm
              · refine List.pairwise_cons.mpr ⟨?_, hpw⟩
                intro x hx
                have hx' : x ∈ (l :: ls) ++ rs := (hperm.mem_iff).mp hx
                rcases List.mem_append.mp hx' with h1 | h2
                · rcases List.mem_cons.mp h1 with rfl | h3
                  · exact hcf rfl
                  · exact Htr r l x hPr hPl (hL x (by simp [h3]))
                      (hcf rfl) (hLp'.1 x h3)
                · exact hRp'.1 x h2

theorem merge_sort_spec
    (Hc : ∀ a b, P a → P b → ∃ c, takeLeft? k asc a b = some c ∧
       (c = true → le a b) ∧ (c = false → le b a))
    (Htr : ∀ a b c, P a → P b → P c → le a b → le b c → le a c) :
    ∀ arr : List Record, (∀ x ∈ arr, P x) →
      ∃ out, merge_sort arr k asc = some out ∧ out.Perm arr ∧ out.Pairwise le := by
  have main : ∀ (n : Nat) (arr : List Record), arr.length ≤ n →
      (∀ x ∈ arr, P x) →
      ∃ out, merge_sort arr k asc = some out ∧ out.Perm arr ∧ out.Pairwise le := by
    intro n
    induction n with
    | zero =>
        intro arr hlen _
        have harr : arr = [] := List.eq_nil_of_length_eq_zero (Nat.le_zero.mp hlen)
        subst harr
        exact ⟨[], merge_sort_short (by simp), by simp, by simp⟩
    | succ n ih =>
        intro arr hlen hP
        by_cases h1 : arr.length ≤ 1
        · refine ⟨arr, merge_sort_short h1, List.Perm.refl arr, ?_⟩
          match arr, h1 with
          | [], _ => exact List.Pairwise.nil
          | [a], _ => simp
        · have h2 : 2 ≤ arr.length := by omega
          have hLlen : (arr.take (arr.length / 2)).length ≤ n := by
            simp only [List.length_take]
            omega
          have hRlen : (arr.drop (arr.length / 2)).length ≤ n := by
            simp only [List.length_drop]
            omega
          obtain ⟨ls, hls, hlsp, hlspw⟩ := ih (arr.take (arr.length / 2)) hLlen
            (fun x hx => hP x (List.take_subset _ _ hx))
          obtain ⟨rs, hrs, hrsp, hrspw⟩ := ih (arr.drop (arr.length / 2)) hRlen
            (fun x hx => hP x (List.drop_subset _ _ hx))
          obtain ⟨out, hm, hmp, hmpw⟩ := merge_spec Hc Htr ls rs
            (fun x hx => hP x (List.take_subset _ _ ((hlsp.mem_iff).mp hx)))
            (fun x hx => hP x (List.drop_subset _ _ ((hrsp.mem_iff).mp hx)))
            hlspw hrspw
          refine ⟨out, ?_, ?_, hmpw⟩
          · rw [merge_sort_rec h1, hls, hrs]
            exact hm
          · have e : arr.take (arr.length / 2) ++ arr.drop (arr.length / 2) = arr :=
              List.take_append_drop _ _
            exact hmp.trans (e ▸ (hlsp.append hrsp))
  intro arr hP
  exact main arr.length arr (Nat.le_refl _) hP

end MergeGeneric

/-! ## Bridging the embedded Python string comparison to the Mathlib order -/

theorem pyStrLtB_iff_lex : ∀ x y : List Char,
    pyStrLtB x y = true ↔ List.Lex (fun c d => c < d) x y := by
  intro x
  induction x with
  | nil =>
      intro y
      cases y with
      | nil => exact iff_of_false (by simp [pyStrLtB]) (List.Lex.not_nil_right _ _)
      | cons d ds => exact iff_of_true (by simp [pyStrLtB]) List.Lex.nil
  | cons c cs ih =>
      intro y
      cases y with
      | nil => exact iff_of_false (by simp [pyStrLtB]) (List.Lex.not_nil_right _ _)
      | cons d ds =>
          rcases lt_trichotomy c d with h | h | h
          · exact iff_of_true (by simp [pyStrLtB, h]) (List.Lex.rel h)
          · subst h
            have e : pyStrLtB (c :: cs) (c :: ds) = pyStrLtB cs ds := by
              simp [pyStrLtB, lt_irrefl]
            rw [e, ih ds]
            exact List.Lex.cons_iff.symm
          · refine iff_of_false ?_ ?_
            · simp [pyStrLtB, h, not_lt_of_gt h]
            · intro hlex
              cases hlex with
              | rel h' => exact absurd h' (not_lt_of_gt h)
              | cons h' => exact lt_irrefl _ h

theorem pyStrLtB_iff_lt (a b : String) : pyStrLtB a.data b.data = true ↔ a < b := by
  rw [String.lt_iff_toList_lt]
  exact pyStrLtB_iff_lex a.data b.data

theorem pyStrLtB_eq_false_iff (a b : String) :
    pyStrLtB a.data b.data = false ↔ b ≤ a := by
  rw [← not_lt, ← pyStrLtB_iff_lt]
  simp

/-! ## Key projections used to state sortedness -/

/-- The key field of a record read as a float, for records whose key field
is a float. -/
def numKeyD (k : Nat) (r : Record) : Rat :=
  match r[k]? with
  | some (.num x) => x
  | _ => 0

/-- The key field of a record read as a string, for records whose key
field is a string. -/
def strKeyD (k : Nat) (r : Record) : String :=
  match r[k]? with
  | some (.str s) => s
  | _ => ""

/-- The key field of a record parsed as a float, for records whose key
field is a numeric string. -/
def parsedKeyD (k : Nat) (r : Record) : Rat :=
  match r[k]? with
  | some (.str s) => (parseFloat s).getD 0
  | _ => 0

/-! ## Computation of one comparison step on the key shapes that occur -/

theorem takeLeft_eq_num {k : Nat} {asc : Bool} {a b : Record} {x y : Rat}
    (ha : a[k]? = some (.num x))
    (hb : b[k]? = some (.num y)) :
    takeLeft? k asc a b = some (if asc then decide (x < y) else decide (x > y)) := by
  simp only [takeLeft?, ha, hb, coercePair, pyFloat]
  cases asc <;> simp [pyLt, pyGt]

theorem takeLeft_eq_str_nocoerce {k : Nat} {asc : Bool} {a b : Record} {s1 s2 : String}
    (hk : ¬(k = 2 ∨ k = 3))
    (ha : a[k]? = some (.str s1))
    (hb : b[k]? = some (.str s2)) :
    takeLeft? k asc a b =
      some (if asc then pyStrLtB s1.data s2.data else pyStrLtB s2.data s1.data) := by
  simp only [takeLeft?, ha, hb, if_neg hk]
  cases asc <;> simp [pyLt, pyGt]

theorem takeLeft_eq_str_parsed {k : Nat} {asc : Bool} {a b : Record} {s1 s2 : String}
    {x y : Rat} (hk : k = 2 ∨ k = 3)
    (ha : a[k]? = some (.str s1)) (hpa : parseFloat s1 = some x)
    (hb : b[k]? = some (.str s2)) (hpb : parseFloat s2 = some y) :
    takeLeft? k asc a b = some (if asc then decide (x < y) else decide (x > y)) := by
  simp only [takeLeft?, ha, hb, if_pos hk, coercePair, pyFloat, hpa, hpb]
  cases asc <;> simp [pyLt, pyGt]

theorem takeLeft_eq_str_unparsed {k : Nat} {asc : Bool} {a b : Record} {s1 s2 : String}
    (hk : k = 2 ∨ k = 3)
    (ha : a[k]? = some (.str s1)) (hpa : parseFloat s1 = none)
    (hb : b[k]? = some (.str s2)) :
    takeLeft? k asc a b =
      some (if asc then pyStrLtB s1.data s2.data else pyStrLtB s2.data s1.data) := by
  simp only [takeLeft?, ha, hb, if_pos hk, coercePair, pyFloat, hpa]
  cases asc <;> simp [pyLt, pyGt]

/-- C3: on every input whose selected field is numeric in every record,
`merge_sort` succeeds, returns a permutation (hence the same length and
multiset of records) of the input, and the selected field is non-decreasing
along the output when ascending and non-increasing when descending. -/
theorem merge_sort_numeric_sorted (arr : List Record) (k : Nat) (asc : Bool)
    (h : ∀ r ∈ arr, ∃ x, r[k]? = some (.num x)) :
    ∃ out, merge_sort arr k asc = some out ∧ out.Perm arr ∧
      out.length = arr.length ∧
      out.Pairwise (fun a b => if asc then numKeyD k a ≤ numKeyD k b
                               else numKeyD k b ≤ numKeyD k a) := by
  have Hc : ∀ a b : Record,
      (∃ x, a[k]? = some (.num x)) →
      (∃ x, b[k]? = some (.num x)) →
      ∃ c, takeLeft? k asc a b = some c ∧
        (c = true → (if asc then numKeyD k a ≤ numKeyD k b
                     else numKeyD k b ≤ numKeyD k a)) ∧
        (c = false → (if asc then numKeyD k b ≤ numKeyD k a
                      else numKeyD k a ≤ numKeyD k b)) := by
    rintro a b ⟨x, ha⟩ ⟨y, hb⟩
    have hka : numKeyD k a = x := by simp [numKeyD, ha]
    have hkb : numKeyD k b = y := by simp [numKeyD, hb]
    refine ⟨if asc then decide (x < y) else decide (x > y),
      takeLeft_eq_num ha hb, ?_, ?_⟩ <;> cases asc <;>
      simp [hka, hkb] <;> intro hxy <;> linarith
  have Htr : ∀ p q r : Record,
      (∃ x, p[k]? = some (.num x)) →
      (∃ x, q[k]? = some (.num x)) →
      (∃ x, r[k]? = some (.num x)) →
      (if asc then numKeyD k p ≤ numKeyD k q else numKeyD k q ≤ numKeyD k p) →
      (if asc then numKeyD k q ≤ numKeyD k r else numKeyD k r ≤ numKeyD k q) →
      (if asc then numKeyD k p ≤ numKeyD k r else numKeyD k r ≤ numKeyD k p) := by
    intro p q r _ _ _ h1 h2
    cases asc <;> simp_all <;> linarith
  obtain ⟨out, h1, h2, h3⟩ := merge_sort_spec Hc Htr arr h
  exact ⟨out, h1, h2, h2.length_eq, h3⟩

/-! ## Anti-stability of the embedded merge -/

theorem merge_right_bias {k : Nat} {asc : Bool} (L : List Record) :
    ∀ R : List Record, (∀ a ∈ L, ∀ b ∈ R, takeLeft? k asc a b = some false) →
      merge k asc L R = some (R ++ L) := by
  intro R
  induction R with
  | nil => cases L <;> intro _ <;> simp [merge]
  | cons r rs ih =>
      intro h
      cases L with
      | nil => simp [merge]
      | cons l ls =>
          have hc := h l (by simp) r (by simp)
          have ih' := ih (fun a ha b hb => h a ha b (by simp [hb]))
          simp [merge, hc, ih']

/-- Evaluation of `merge_sort` on a two-element input, used by the concrete
refutations: the two singleton halves are merged directly. -/
theorem merge_sort_pair (a b : Record) (k : Nat) (asc : Bool) :
    merge_sort [a, b] k asc = merge k asc [a] [b] := by
  have h2 : ¬([a, b] : List Record).length ≤ 1 := by simp
  have e1 : List.take (([a, b] : List Record).length / 2) [a, b] = [a] := by simp
  have e2 : List.drop (([a, b] : List Record).length / 2) [a, b] = [b] := by simp
  rw [merge_sort_rec h2, e1, e2, merge_sort_short (by simp),
    merge_sort_short (by simp)]

/-- C2 amended: the sort is anti-stable on runs of equal keys — each merge
step emits the equal-keyed records of the right half before those of the
left half, so an input whose selected field is the same value in every
record comes back in reversed order. -/
theorem merge_sort_constant_key_reversed (arr : List Record) (k : Nat)
    (asc : Bool) (v : Rat) (h : ∀ r ∈ arr, r[k]? = some (.num v)) :
    merge_sort arr k asc = some arr.reverse := by
  have main : ∀ (n : Nat) (arr : List Record), arr.length ≤ n →
      (∀ r ∈ arr, r[k]? = some (.num v)) →
      merge_sort arr k asc = some arr.reverse := by
    intro n
    induction n with
    | zero =>
        intro arr hlen _
        have harr : arr = [] := List.eq_nil_of_length_eq_zero (Nat.le_zero.mp hlen)
        subst harr
        exact merge_sort_short (by simp)
    | succ n ih =>
        intro arr hlen harr
        by_cases h1 : arr.length ≤ 1
        · rw [merge_sort_short h1]
          match arr, h1 with
          | [], _ => rfl
          | [a], _ => rfl
        · have hL := ih (arr.take (arr.length / 2))
            (by simp only [List.length_take]; omega)
            (fun r hr => harr r (List.take_subset _ _ hr))
          have hR := ih (arr.drop (arr.length / 2))
            (by simp only [List.length_drop]; omega)
            (fun r hr => harr r (List.drop_subset _ _ hr))
          have hm : merge k asc (arr.take (arr.length / 2)).reverse
              (arr.drop (arr.length / 2)).reverse =
              some ((arr.drop (arr.length / 2)).reverse ++
                (arr.take (arr.length / 2)).reverse) := by
            apply merge_right_bias
            intro a ha b hb
            have ha' := harr a (List.take_subset _ _ (List.mem_reverse.mp ha))
            have hb' := harr b (List.drop_subset _ _ (List.mem_reverse.mp hb))
            rw [takeLeft_eq_num ha' hb']
            cases asc <;> simp
          calc merge_sort arr k asc
              = merge k asc (arr.take (arr.length / 2)).reverse
                  (arr.drop (arr.length / 2)).reverse := by
                rw [merge_sort_rec h1, hL, hR]
            _ = some ((arr.drop (arr.length / 2)).reverse ++
                  (arr.take (arr.length / 2)).reverse) := hm
            _ = some arr.reverse := by
                rw [← List.reverse_append, List.take_append_drop]
  exact main arr.length arr (Nat.le_refl _) h

/-! ## Sortedness on string keys -/

/-- Shared instantiation of the generic sort theorem for the situations in
which every comparison is the embedded Python string comparison. -/
theorem merge_sort_string_sorted_of (arr : List Record) (k : Nat) (asc : Bool)
    (Q : Record → Prop)
    (hcmp : ∀ a b, Q a → Q b → takeLeft? k asc a b =
       some (if asc then pyStrLtB (strKeyD k a).data (strKeyD k b).data
             else pyStrLtB (strKeyD k b).data (strKeyD k a).data))
    (h : ∀ r ∈ arr, Q r) :
    ∃ out, merge_sort arr k asc = some out ∧ out.Perm arr ∧
      out.Pairwise (fun a b => if asc then strKeyD k a ≤ strKeyD k b
                    else strKeyD k b ≤ strKeyD k a) := by
  have Hc : ∀ a b : Record, Q a → Q b →
      ∃ c, takeLeft? k asc a b = some c ∧
        (c = true → (if asc then strKeyD k a ≤ strKeyD k b
                     else strKeyD k b ≤ strKeyD k a)) ∧
        (c = false → (if asc then strKeyD k b ≤ strKeyD k a
                      else strKeyD k a ≤ strKeyD k b)) := by
    intro a b ha hb
    cases asc with
    | true =>
        refine ⟨_, hcmp a b ha hb, fun hc => ?_, fun hc => ?_⟩
        · exact le_of_lt ((pyStrLtB_iff_lt _ _).mp hc)
        · exact (pyStrLtB_eq_false_iff _ _).mp hc
    | false =>
        refine ⟨_, hcmp a b ha hb, fun hc => ?_, fun hc => ?_⟩
        · exact le_of_lt ((pyStrLtB_iff_lt _ _).mp hc)
        · exact (pyStrLtB_eq_false_iff _ _).mp hc
  have Htr : ∀ p q r : Record, Q p → Q q → Q r →
      (if asc then strKeyD k p ≤ strKeyD k q else strKeyD k q ≤ strKeyD k p) →
      (if asc then strKeyD k q ≤ strKeyD k r else strKeyD k r ≤ strKeyD k q) →
      (if asc then strKeyD k p ≤ strKeyD k r else strKeyD k r ≤ strKeyD k p) := by
    intro p q r _ _ _ h1 h2
    cases asc with
    | true => exact le_trans h1 h2
    | false => exact le_trans h2 h1
  exact merge_sort_spec Hc Htr arr h

/-- C8 amended: a failed numeric coercion does not by itself abort the
sort — when every selected key value is a string that fails numeric
parsing (so every coercion attempt fails), `merge_sort` still returns a
result; the sort only raises when a comparison pairs values of different
types after the coercion attempt. -/
theorem merge_sort_failed_coercion_ok (arr : List Record) (k : Nat)
    (asc : Bool) (hk : k = 2 ∨ k = 3)
    (h : ∀ r ∈ arr, ∃ s, r[k]? = some (.str s) ∧ parseFloat s = none) :
    ∃ out, merge_sort arr k asc = some out ∧ out.Perm arr := by
  have hcmp : ∀ a b : Record,
      (∃ s, a[k]? = some (.str s) ∧ parseFloat s = none) →
      (∃ s, b[k]? = some (.str s) ∧ parseFloat s = none) →
      takeLeft? k asc a b =
        some (if asc then pyStrLtB (strKeyD k a).data (strKeyD k b).data
              else pyStrLtB (strKeyD k b).data (strKeyD k a).data) := by
    rintro a b ⟨s1, ha, hpa⟩ ⟨s2, hb, _⟩
    have hka : strKeyD k a = s1 := by simp [strKeyD, ha]
    have hkb : strKeyD k b = s2 := by simp [strKeyD, hb]
    rw [takeLeft_eq_str_unparsed hk ha hpa hb, hka, hkb]
  obtain ⟨out, h1, h2, _⟩ := merge_sort_string_sorted_of arr k asc
    (fun r => ∃ s, r[k]? = some (.str s) ∧ parseFloat s = none) hcmp h
  exact ⟨out, h1, h2⟩

/-- C9 amended: the numeric comparison rule is keyed to the key indices 2
and 3 (the positions the amount column occupies in the two record shapes),
not to the amount field as such: for key index 2 or 3 string values are
parsed and compared as numbers, and for every other key index string
values compare by natural lexicographic ordering. -/
theorem merge_sort_comparison_rule (k : Nat) (asc : Bool) :
    (∀ arr : List Record, (k = 2 ∨ k = 3) →
       (∀ r ∈ arr, ∃ s x, r[k]? = some (.str s) ∧ parseFloat s = some x) →
       ∃ out, merge_sort arr k asc = some out ∧ out.Perm arr ∧
         out.Pairwise (fun a b => if asc then parsedKeyD k a ≤ parsedKeyD k b
                       else parsedKeyD k b ≤ parsedKeyD k a)) ∧
    (∀ arr : List Record, ¬(k = 2 ∨ k = 3) →
       (∀ r ∈ arr, ∃ s, r[k]? = some (.str s)) →
       ∃ out, merge_sort arr k asc = some out ∧ out.Perm arr ∧
         out.Pairwise (fun a b => if asc then strKeyD k a ≤ strKeyD k b
                       else strKeyD k b ≤ strKeyD k a)) := by
  constructor
  · intro arr hk h
    have Hc : ∀ a b : Record,
        (∃ s x, a[k]? = some (.str s) ∧ parseFloat s = some x) →
        (∃ s x, b[k]? = some (.str s) ∧ parseFloat s = some x) →
        ∃ c, takeLeft? k asc a b = some c ∧
          (c = true → (if asc then parsedKeyD k a ≤ parsedKeyD k b
                       else parsedKeyD k b ≤ parsedKeyD k a)) ∧
          (c = false → (if asc then parsedKeyD k b ≤ parsedKeyD k a
                        else parsedKeyD k a ≤ parsedKeyD k b)) := by
      rintro a b ⟨s1, x, ha, hpa⟩ ⟨s2, y, hb, hpb⟩
      have hka : parsedKeyD k a = x := by simp [parsedKeyD, ha, hpa]
      have hkb : parsedKeyD k b = y := by simp [parsedKeyD, hb, hpb]
      refine ⟨if asc then decide (x < y) else decide (x > y),
        takeLeft_eq_str_parsed hk ha hpa hb hpb, ?_, ?_⟩ <;> cases asc <;>
        simp [hka, hkb] <;> intro hxy <;> linarith
    have Htr : ∀ p q r : Record,
        (∃ s x, p[k]? = some (.str s) ∧ parseFloat s = some x) →
        (∃ s x, q[k]? = some (.str s) ∧ parseFloat s = some x) →
        (∃ s x, r[k]? = some (.str s) ∧ parseFloat s = some x) →
        (if asc then parsedKeyD k p ≤ parsedKeyD k q
         else parsedKeyD k q ≤ parsedKeyD k p) →
        (if asc then parsedKeyD k q ≤ parsedKeyD k r
         else parsedKeyD k r ≤ parsedKeyD k q) →
        (if asc then parsedKeyD k p ≤ parsedKeyD k r
         else parsedKeyD k r ≤ parsedKeyD k p) := by
      intro p q r _ _ _ h1 h2
      cases asc <;> simp_all <;> linarith
    exact merge_sort_spec Hc Htr arr h
  · intro arr hk h
    apply merge_sort_string_sorted_of arr k asc
      (fun r => ∃ s, r[k]? = some (.str s)) ?_ h
    rintro a b ⟨s1, ha⟩ ⟨s2, hb⟩
    have hka : strKeyD k a = s1 := by simp [strKeyD, ha]
    have hkb : strKeyD k b = s2 := by simp [strKeyD, hb]
    rw [takeLeft_eq_str_nocoerce hk ha hb, hka, hkb]

/-! ## The ledger invariant under the interactive operations -/

/-- Auxiliary invariant carried through the induction: every stored account
id is below the autoincrement counter, and every transaction points at an
existing account. -/
def IdsOk (db : DB) : Prop :=
  (∀ a ∈ db.accounts, a.id < db.nextId) ∧
  (∀ t ∈ db.txns, ∃ a ∈ db.accounts, a.id = t.account_id)

theorem txnSum_update_balance (db : DB) (uid : Nat) (δ : Rat) (i : Nat) :
    txnSum (update_balance db uid δ) i = txnSum db i := rfl

theorem accounts_record_transaction (db : DB) (uid : Nat) (ty : String)
    (amt : Rat) (ts ds : String) :
    (record_transaction db uid ty amt ts ds).accounts = db.accounts := rfl

theorem nextId_record_transaction (db : DB) (uid : Nat) (ty : String)
    (amt : Rat) (ts ds : String) :
    (record_transaction db uid ty amt ts ds).nextId = db.nextId := rfl

theorem txnSum_record_transaction (db : DB) (uid : Nat) (ty : String)
    (amt : Rat) (ts ds : String) (i : Nat) :
    txnSum (record_transaction db uid ty amt ts ds) i =
      txnSum db i + (if i = uid then amt else 0) := by
  simp only [txnSum, record_transaction, List.filter_append, List.map_append,
    List.sum_append]
  by_cases h : i = uid
  · subst h
    simp
  · have e : (uid == i) = false := by simpa using Ne.symm h
    simp [List.filter, e, h]

theorem txnSum_eq_zero (db : DB) (i : Nat)
    (h : ∀ t ∈ db.txns, t.account_id ≠ i) : txnSum db i = 0 := by
  have e : db.txns.filter (fun t => t.account_id == i) = [] := by
    rw [List.filter_eq_nil_iff]
    intro t ht
    simpa using h t ht
  simp [txnSum, e]

theorem mem_update_balance {db : DB} {uid : Nat} {δ : Rat} {acc : Account}
    (h : acc ∈ (update_balance db uid δ).accounts) :
    ∃ a0 ∈ db.accounts,
      acc = if a0.id == uid then { a0 with balance := a0.balance + δ } else a0 := by
  simp only [update_balance] at h
  obtain ⟨a0, ha0, he⟩ := List.mem_map.mp h
  exact ⟨a0, ha0, he.symm⟩

theorem exists_id_update_balance {db : DB} {uid : Nat} {δ : Rat} {i : Nat}
    (h : ∃ a ∈ db.accounts, a.id = i) :
    ∃ a ∈ (update_balance db uid δ).accounts, a.id = i := by
  obtain ⟨a, ha, rfl⟩ := h
  refine ⟨if a.id == uid then { a with balance := a.balance + δ } else a, ?_, ?_⟩
  · simp only [update_balance]
    exact List.mem_map_of_mem _ ha
  · by_cases h : a.id == uid <;> simp [h]

theorem account_of_lookup {db : DB} {u : String} {i : Nat}
    (h : get_account_id_by_username db u = some i) :
    ∃ a ∈ db.accounts, a.id = i := by
  simp only [get_account_id_by_username, Option.map_eq_some'] at h
  obtain ⟨a, ha, hid⟩ := h
  exact ⟨a, List.mem_of_find?_eq_some ha, hid⟩

theorem inv_update_record (db : DB) (uid : Nat) (δ : Rat) (ty ts ds : String)
    (hInv : Inv db) :
    Inv (record_transaction (update_balance db uid δ) uid ty δ ts ds) := by
  intro acc hacc
  have hacc' : acc ∈ (update_balance db uid δ).accounts := hacc
  obtain ⟨a0, ha0, heq⟩ := mem_update_balance hacc'
  have hsum : txnSum (record_transaction (update_balance db uid δ) uid ty δ ts ds)
      acc.id = txnSum db acc.id + (if acc.id = uid then δ else 0) := by
    rw [txnSum_record_transaction, txnSum_update_balance]
  rw [hsum]
  by_cases hid : a0.id = uid
  · have he : acc = { a0 with balance := a0.balance + δ } := by
      rw [heq, if_pos (by simpa using hid)]
    have hidacc : acc.id = uid := by rw [he]; exact hid
    have hbal : acc.balance = a0.balance + δ := by rw [he]
    rw [hbal, hidacc, if_pos rfl, hInv a0 ha0, hid]
  · have he : acc = a0 := by
      rw [heq, if_neg (by simpa using hid)]
    rw [he, if_neg hid, hInv a0 ha0, add_zero]

theorem ids_update_record (db : DB) (uid : Nat) (δ : Rat) (ty ts ds : String)
    (hIds : IdsOk db) (hin : ∃ a ∈ db.accounts, a.id = uid) :
    IdsOk (record_transaction (update_balance db uid δ) uid ty δ ts ds) := by
  constructor
  · intro a ha
    have ha' : a ∈ (update_balance db uid δ).accounts := ha
    obtain ⟨a0, ha0, heq⟩ := mem_update_balance ha'
    have hid : a.id = a0.id := by
      rw [heq]
      by_cases h : a0.id == uid <;> simp [h]
    show a.id < db.nextId
    rw [hid]
    exact hIds.1 a0 ha0
  · intro t ht
    rcases List.mem_append.mp ht with h | h
    · obtain ⟨a, ha, hid⟩ := hIds.2 t h
      exact exists_id_update_balance ⟨a, ha, hid⟩
    · have he : t = ⟨uid, ty, δ, ts, ds⟩ := by simpa using h
      rw [he]
      exact exists_id_update_balance hin

theorem deposit_preserves (db : DB) (uid : Nat) (s ts : String)
    (hin : ∃ a ∈ db.accounts, a.id = uid) (hInv : Inv db) (hIds : IdsOk db) :
    Inv (handle_deposit db uid s ts).1 ∧ IdsOk (handle_deposit db uid s ts).1 := by
  unfold handle_deposit
  cases hp : parseFloat s with
  | none => exact ⟨hInv, hIds⟩
  | some a =>
      by_cases ha : a ≤ 0
      · simp only [if_pos ha]
        exact ⟨hInv, hIds⟩
      · simp only [if_neg ha]
        exact ⟨inv_update_record db uid a _ _ _ hInv,
          ids_update_record db uid a _ _ _ hIds hin⟩

theorem withdraw_preserves (db : DB) (uid : Nat) (s ts : String)
    (hin : ∃ a ∈ db.accounts, a.id = uid) (hInv : Inv db) (hIds : IdsOk db) :
    Inv (handle_withdraw db uid s ts).1 ∧ IdsOk (handle_withdraw db uid s ts).1 := by
  unfold handle_withdraw
  cases hp : parseFloat s with
  | none => exact ⟨hInv, hIds⟩
  | some a =>
      by_cases ha : a ≤ 0
      · simp only [if_pos ha]
        exact ⟨hInv, hIds⟩
      · by_cases hb : a > get_balance db uid
        · simp only [if_neg ha, if_pos hb]
          exact ⟨hInv, hIds⟩
        · simp only [if_neg ha, if_neg hb]
          exact ⟨inv_update_record db uid (-a) _ _ _ hInv,
            ids_update_record db uid (-a) _ _ _ hIds hin⟩

theorem create_core_preserves (db : DB) (u p : String) (d : Rat) (ts : String)
    (hInv : Inv db) (hIds : IdsOk db) :
    Inv (create_account_core db u p d ts).1 ∧
      IdsOk (create_account_core db u p d ts).1 := by
  unfold create_account_core
  by_cases hdup : db.accounts.any (fun a => a.username == u)
  · simp only [if_pos hdup]
    exact ⟨hInv, hIds⟩
  · simp only [if_neg hdup]
    set newA : Account := ⟨db.nextId, u, p, d⟩ with hA
    set newT : Txn := ⟨db.nextId, "Deposit", d, ts, "Initial deposit on account creation"⟩
      with hT
    have hfresh : ∀ t ∈ db.txns, t.account_id ≠ db.nextId := by
      intro t ht hcontra
      obtain ⟨a, ha, hid⟩ := hIds.2 t ht
      exact absurd (hid.trans hcontra ▸ hIds.1 a ha) (lt_irrefl db.nextId)
    constructor
    · intro acc hacc
      have hsum : ∀ i, txnSum ⟨db.accounts ++ [newA], db.txns ++ [newT],
          db.nextId + 1⟩ i = txnSum db i + (if i = db.nextId then d else 0) := by
        intro i
        exact txnSum_record_transaction ⟨db.accounts ++ [newA], db.txns, db.nextId + 1⟩
          db.nextId "Deposit" d ts "Initial deposit on account creation" i
      rcases List.mem_append.mp hacc with h | h
      · show acc.balance =
          txnSum ⟨db.accounts ++ [newA], db.txns ++ [newT], db.nextId + 1⟩ acc.id
        rw [hsum acc.id, if_neg (by
          intro hcontra
          exact absurd (hcontra ▸ hIds.1 acc h) (lt_irrefl db.nextId)), add_zero]
        exact hInv acc h
      · have he : acc = newA := by simpa using h
        show acc.balance =
          txnSum ⟨db.accounts ++ [newA], db.txns ++ [newT], db.nextId + 1⟩ acc.id
        rw [he, hsum newA.id]
        have hid : newA.id = db.nextId := rfl
        rw [hid, if_pos rfl, txnSum_eq_zero db db.nextId hfresh, zero_add]
    · constructor
      · intro a ha
        rcases List.mem_append.mp ha with h | h
        · exact Nat.lt_succ_of_lt (hIds.1 a h)
        · have he : a = newA := by simpa using h
          rw [he]
          exact Nat.lt_succ_self _
      · intro t ht
        rcases List.mem_append.mp ht with h | h
        · obtain ⟨a, ha, hid⟩ := hIds.2 t h
          exact ⟨a, List.mem_append_left _ ha, hid⟩
        · have he : t = newT := by simpa using h
          exact ⟨newA, List.mem_append_right _ (by simp), by rw [he]⟩

theorem create_preserves (db : DB) (u p d ts : String)
    (hInv : Inv db) (hIds : IdsOk db) :
    Inv (create_account db u p d ts).1 ∧ IdsOk (create_account db u p d ts).1 := by
  unfold create_account
  cases hp : parseFloat d with
  | none => exact ⟨hInv, hIds⟩
  | some x =>
      by_cases hx : x < 0
      · simp only [if_pos hx]
        exact ⟨hInv, hIds⟩
      · simp only [if_neg hx]
        exact create_core_preserves db u p x ts hInv hIds

theorem transfer_preserves (db : DB) (sid : Nat) (sname rentry s ts : String)
    (hin : ∃ a ∈ db.accounts, a.id = sid) (hInv : Inv db) (hIds : IdsOk db) :
    Inv (handle_transfer db sid sname rentry s ts).1 ∧
      IdsOk (handle_transfer db sid sname rentry s ts).1 := by
  unfold handle_transfer
  cases hp : parseFloat s with
  | none => exact ⟨hInv, hIds⟩
  | some a =>
      by_cases ha : a ≤ 0
      · simp only [if_pos ha]
        exact ⟨hInv, hIds⟩
      · simp only [if_neg ha]
        cases hr : get_account_id_by_username db (pyStrip rentry) with
        | none => exact ⟨hInv, hIds⟩
        | some rid =>
            by_cases hself : sid == rid
            · simp only [if_pos hself]
              exact ⟨hInv, hIds⟩
            · by_cases hb : a > get_balance db sid
              · simp only [if_neg hself, if_pos hb]
                exact ⟨hInv, hIds⟩
              · simp only [if_neg hself, if_neg hb]
                have hne : sid ≠ rid := by simpa using hself
                have hrin : ∃ x ∈ db.accounts, x.id = rid := account_of_lookup hr
                set U2 : DB := update_balance (update_balance db sid (-a)) rid a
                  with hU2
                set F : DB := record_transaction (record_transaction U2 sid
                  "Transfer (Out)" (-a) ts ("Transfer to " ++ pyStrip rentry)) rid
                  "Transfer (In)" a ts ("Transfer from " ++ sname) with hF
                have hsum : ∀ i, txnSum F i = txnSum db i +
                    (if i = sid then -a else 0) + (if i = rid then a else 0) := by
                  intro i
                  rw [hF, txnSum_record_transaction, txnSum_record_transaction,
                    hU2, txnSum_update_balance, txnSum_update_balance]
                constructor
                · intro acc hacc
                  have haccU : acc ∈ U2.accounts := hacc
                  obtain ⟨a1, ha1, he1⟩ := mem_update_balance haccU
                  obtain ⟨a0, ha0, he0⟩ := mem_update_balance ha1
                  show acc.balance = txnSum F acc.id
                  rw [hsum acc.id]
                  by_cases hs : a0.id = sid
                  · have he0' : a1 = { a0 with balance := a0.balance + -a } := by
                      rw [he0, if_pos (by simpa using hs)]
                    have hid1 : a1.id = sid := by rw [he0']; exact hs
                    have he1' : acc = a1 := by
                      rw [he1, if_neg (by simp [hid1, hne])]
                    have hidacc : acc.id = sid := by rw [he1']; exact hid1
                    have hbal : acc.balance = a0.balance + -a := by rw [he1', he0']
                    rw [hbal, hidacc, if_pos rfl, if_neg hne, add_zero,
                      hInv a0 ha0, hs]
                  · by_cases hrd : a0.id = rid
                    · have he0' : a1 = a0 := by rw [he0, if_neg (by simpa using hs)]
                      have hid1 : a1.id = rid := by rw [he0']; exact hrd
                      have he1' : acc = { a1 with balance := a1.balance + a } := by
                        rw [he1, if_pos (by simpa using hid1)]
                      have hidacc : acc.id = rid := by rw [he1']; exact hid1
                      have hbal : acc.balance = a0.balance + a := by rw [he1', he0']
                      rw [hbal, hidacc, if_neg (Ne.symm hne), add_zero, if_pos rfl,
                        hInv a0 ha0, hrd]
                    · have he0' : a1 = a0 := by rw [he0, if_neg (by simpa using hs)]
                      have he1' : acc = a0 := by
                        rw [he1, if_neg (by simp [he0', hrd]), he0']
                      rw [he1', if_neg hs, if_neg hrd, add_zero, add_zero]
                      exact hInv a0 ha0
                · constructor
                  · intro x hx
                    have hxU : x ∈ U2.accounts := hx
                    obtain ⟨a1, ha1, he1⟩ := mem_update_balance hxU
                    obtain ⟨a0, ha0, he0⟩ := mem_update_balance ha1
                    have hid1 : a1.id = a0.id := by
                      rw [he0]
                      by_cases h : a0.id == sid <;> simp [h]
                    have hidx : x.id = a1.id := by
                      rw [he1]
                      by_cases h : a1.id == rid <;> simp [h]
                    show x.id < db.nextId
                    rw [hidx, hid1]
                    exact hIds.1 a0 ha0
                  · intro t ht
                    have htF : t ∈ (db.txns ++ [(⟨sid, "Transfer (Out)", -a, ts,
                        "Transfer to " ++ pyStrip rentry⟩ : Txn)]) ++
                        [(⟨rid, "Transfer (In)", a, ts,
                        "Transfer from " ++ sname⟩ : Txn)] := ht
                    rcases List.mem_append.mp htF with h | h
                    · rcases List.mem_append.mp h with h2 | h2
                      · obtain ⟨x, hxm, hid⟩ := hIds.2 t h2
                        exact exists_id_update_balance
                          (exists_id_update_balance ⟨x, hxm, hid⟩)
                      · have he : t = ⟨sid, "Transfer (Out)", -a, ts,
                            "Transfer to " ++ pyStrip rentry⟩ := by simpa using h2
                        rw [he]
                        exact exists_id_update_balance (exists_id_update_balance hin)
                    · have he : t = ⟨rid, "Transfer (In)", a, ts,
                          "Transfer from " ++ sname⟩ := by simpa using h
                      rw [he]
                      exact exists_id_update_balance (exists_id_update_balance hrin)

/-- C1 amended: the balance invariant holds after any sequence of the
interactive ledger-affecting operations — account creation with initial
deposit, deposit, withdrawal and transfer — starting from a fresh store.
(The first-run CSV bulk import is excluded: it records `withdraw`-type rows
with amount `+a` while subtracting `a` from the balance, and records rows
of any other non-`deposit` type without moving the balance at all, so it
breaks the invariant; see the counterexample.) -/
theorem ledger_invariant_reachable (db : DB)
    (h : Relation.ReflTransGen Step initDB db) : Inv db := by
  suffices hmain : Inv db ∧ IdsOk db by exact hmain.1
  induction h with
  | refl =>
      constructor
      · intro a ha
        simp [initDB] at ha
      · constructor
        · intro a ha
          simp [initDB] at ha
        · intro t ht
          simp [initDB] at ht
  | tail hsteps hstep ih =>
      cases hstep with
      | create u p d ts => exact create_preserves _ u p d ts ih.1 ih.2
      | deposit uid s ts hin => exact deposit_preserves _ uid s ts hin ih.1 ih.2
      | withdraw uid s ts hin => exact withdraw_preserves _ uid s ts hin ih.1 ih.2
      | transfer sid sname rentry s ts hin =>
          exact transfer_preserves _ sid sname rentry s ts hin ih.1 ih.2

/-- C1 is refuted on the CSV bulk import: importing the single row
`Username=u, Type=Withdraw, Amount=50` into a fresh store leaves account 1
with balance `-50`, while its transaction amounts (the zero opening deposit
plus the imported `Withdraw` row recorded with `+50`) sum to `50`. -/
theorem ledger_invariant_import_cex :
    ¬ Inv (load_initial_data initDB [⟨"u", "Withdraw", "50", "", "t"⟩]) ∧
    (load_initial_data initDB [⟨"u", "Withdraw", "50", "", "t"⟩]).accounts =
      [⟨1, "u", "default123", -50⟩] ∧
    txnSum (load_initial_data initDB [⟨"u", "Withdraw", "50", "", "t"⟩]) 1 = 50 := by
  have h2 : (load_initial_data initDB [⟨"u", "Withdraw", "50", "", "t"⟩]).accounts =
      [⟨1, "u", "default123", -50⟩] := by
    simp +decide [load_initial_data, importRow, create_account_core,
      record_transaction, update_balance, get_account_id_by_username, parseFloat,
      parseUnsigned, natOfDigits, pyStrip, pyCapitalize, pyLower, initDB]
  have h3 : txnSum (load_initial_data initDB [⟨"u", "Withdraw", "50", "", "t"⟩]) 1
      = 50 := by
    simp +decide [txnSum, load_initial_data, importRow, create_account_core,
      record_transaction, update_balance, get_account_id_by_username, parseFloat,
      parseUnsigned, natOfDigits, pyStrip, pyCapitalize, pyLower, initDB]
  refine ⟨fun hInv => ?_, h2, h3⟩
  have hb := hInv ⟨1, "u", "default123", -50⟩ (by rw [h2]; simp)
  rw [h3] at hb
  norm_num at hb

/-- C1 witness: the invariant after a concrete account creation, reached in
one step from the fresh store. -/
theorem ledger_invariant_reachable_witness :
    Inv (create_account initDB "alice" "pw" "100" "t").1 :=
  ledger_invariant_reachable _
    (Relation.ReflTransGen.single (Step.create initDB "alice" "pw" "100" "t"))

/-! ## The account-creation operation (C4) -/

/-- C4 amended: `create_account` validates and inserts exactly as claimed,
but on success it returns the constant Python `True` — a bare success
indicator — rather than the new account id. -/
theorem create_account_spec (db : DB) (u p s ts : String) :
    (parseFloat s = none →
      create_account db u p s ts =
        (db, .msg "Initial deposit must be a valid number.")) ∧
    (∀ d : Rat, parseFloat s = some d → d < 0 →
      create_account db u p s ts =
        (db, .msg "Initial deposit cannot be negative.")) ∧
    (∀ d : Rat, parseFloat s = some d → 0 ≤ d →
      (∃ a ∈ db.accounts, a.username = u) →
      create_account db u p s ts = (db, .msg "Username already exists.")) ∧
    (∀ d : Rat, parseFloat s = some d → 0 ≤ d →
      (∀ a ∈ db.accounts, a.username ≠ u) →
      create_account db u p s ts =
        ({ accounts := db.accounts ++ [⟨db.nextId, u, p, d⟩],
           txns := db.txns ++ [⟨db.nextId, "Deposit", d, ts,
             "Initial deposit on account creation"⟩],
           nextId := db.nextId + 1 }, .tru)) := by
  refine ⟨?_, ?_, ?_, ?_⟩
  · intro h
    simp [create_account, h]
  · intro d h hneg
    simp [create_account, h, hneg]
  · intro d h hpos hdup
    have hany : db.accounts.any (fun a => a.username == u) = true := by
      obtain ⟨a, ha, he⟩ := hdup
      exact List.any_eq_true.mpr ⟨a, ha, by simpa using he⟩
    simp [create_account, create_account_core, h, not_lt.mpr hpos, hany]
  · intro d h hpos hnodup
    have hany : db.accounts.any (fun a => a.username == u) = false := by
      rw [List.any_eq_false]
      intro a ha
      simpa using hnodup a ha
    simp [create_account, create_account_core, record_transaction, h,
      not_lt.mpr hpos, hany]

/-- C4 is refuted on its "returns the new account id" clause: two distinct
successful creations on a fresh store return the identical value `True`
although the accounts created received the distinct ids 1 and 2, so the
return value of `create_account` does not identify the new account. -/
theorem create_account_returns_true_cex :
    (create_account initDB "alice" "pw" "100" "t1").2 = PyRet.tru ∧
    (create_account (create_account initDB "alice" "pw" "100" "t1").1
      "bob" "pw" "5" "t2").2 = PyRet.tru ∧
    get_account_id_by_username (create_account
      (create_account initDB "alice" "pw" "100" "t1").1 "bob" "pw" "5" "t2").1
      "alice" = some 1 ∧
    get_account_id_by_username (create_account
      (create_account initDB "alice" "pw" "100" "t1").1 "bob" "pw" "5" "t2").1
      "bob" = some 2 := by
  refine ⟨?_, ?_, ?_, ?_⟩ <;>
    simp +decide [create_account, create_account_core, record_transaction,
      get_account_id_by_username, parseFloat, parseUnsigned, natOfDigits,
      pyStrip, initDB]

/-! ## Rejection paths of the transaction handlers (C5, C6, C7) -/

/-- C5: a positive numeric withdrawal strictly exceeding the account's
current balance is rejected with the insufficient-funds error and leaves
the store — balances and transactions — unchanged. -/
theorem withdraw_insufficient_funds (db : DB) (uid : Nat) (s ts : String)
    (a : Rat) (h1 : parseFloat s = some a) (h2 : 0 < a)
    (hex : ∃ acc ∈ db.accounts, acc.id = uid)
    (h3 : get_balance db uid < a) :
    handle_withdraw db uid s ts = (db, .insufficientFunds) := by
  simp [handle_withdraw, h1, not_le.mpr h2, h3]

/-- C6: a deposit or withdrawal whose amount string is non-numeric or not
strictly positive is rejected before any mutation: the store is unchanged
and the outcome is not success. -/
theorem invalid_amount_rejected (db : DB) (uid : Nat) (s ts : String)
    (h : parseFloat s = none ∨ ∃ a : Rat, parseFloat s = some a ∧ a ≤ 0) :
    (handle_deposit db uid s ts).1 = db ∧
    (handle_deposit db uid s ts).2 ≠ TxOutcome.ok ∧
    (handle_withdraw db uid s ts).1 = db ∧
    (handle_withdraw db uid s ts).2 ≠ TxOutcome.ok := by
  rcases h with h | ⟨a, h, ha⟩
  · simp [handle_deposit, handle_withdraw, h]
  · simp [handle_deposit, handle_withdraw, h, ha]

/-- C7: a positive numeric transfer whose recipient username resolves to no
account is rejected as recipient-not-found, and one whose recipient
resolves to the sender's own account is rejected as a self-transfer; both
rejections leave the store unchanged. -/
theorem transfer_bad_recipient_rejected (db : DB) (sid : Nat)
    (sname rentry s ts : String) (a : Rat)
    (h1 : parseFloat s = some a) (h2 : 0 < a) :
    (get_account_id_by_username db (pyStrip rentry) = none →
      handle_transfer db sid sname rentry s ts = (db, .recipientNotFound)) ∧
    (get_account_id_by_username db (pyStrip rentry) = some sid →
      handle_transfer db sid sname rentry s ts = (db, .selfTransfer)) := by
  constructor <;> intro hr <;> simp [handle_transfer, h1, not_le.mpr h2, hr]

/-! ## `update_balance` on an unknown account id (C10) -/

/-- C10: updating the balance of an id that matches no stored account is a
silent no-op — the SQL `UPDATE` matches zero rows, no error reaches the
caller, and every account row and transaction row is left unchanged. -/
theorem update_balance_unknown_id (db : DB) (uid : Nat) (delta : Rat)
    (h : ∀ a ∈ db.accounts, a.id ≠ uid) :
    update_balance db uid delta = db := by
  simp only [update_balance]
  have e : (db.accounts.map fun a =>
      if a.id == uid then { a with balance := a.balance + delta } else a) =
      db.accounts := by
    rw [List.map_congr_left (g := id) ?_, List.map_id]
    intro a ha
    simp [h a ha]
  rw [e]

/-! ## Concrete refutations and witnesses for the ordering claims -/

/-- C2 is refuted: two distinct records with equal selected-field values
come back from `merge_sort` in the opposite of their input order, because
the merge takes the right head whenever the left head does not strictly
win the comparison. -/
theorem merge_sort_stability_cex :
    merge_sort [[Value.num 7, Value.str "A"], [Value.num 7, Value.str "B"]] 0 true
      = some [[Value.num 7, Value.str "B"], [Value.num 7, Value.str "A"]] ∧
    ([Value.num 7, Value.str "A"] : Record) ≠ [Value.num 7, Value.str "B"] ∧
    (([Value.num 7, Value.str "A"] : Record))[0]? =
      (([Value.num 7, Value.str "B"] : Record))[0]? := by
  refine ⟨?_, by decide, rfl⟩
  rw [merge_sort_pair]
  have hc : takeLeft? 0 true [Value.num 7, Value.str "A"]
      [Value.num 7, Value.str "B"] = some false := by decide
  simp [merge, hc]

/-- C2 amended witness: a concrete all-equal-keys input is returned
reversed. -/
theorem merge_sort_constant_key_reversed_witness :
    merge_sort [[Value.num 7, Value.str "a"], [Value.num 7, Value.str "b"]]
      0 true =
      some ([[Value.num 7, Value.str "a"],
        [Value.num 7, Value.str "b"]] : List Record).reverse :=
  merge_sort_constant_key_reversed _ 0 true 7 (by
    intro r hr
    simp only [List.mem_cons, List.not_mem_nil, or_false] at hr
    rcases hr with rfl | rfl <;> rfl)

/-- C3 witness: a concrete numeric-keyed input is sorted ascending. -/
theorem merge_sort_numeric_sorted_witness :
    ∃ out, merge_sort [[Value.num 3], [Value.num 1], [Value.num 2]] 0 true
        = some out ∧
      out.Perm [[Value.num 3], [Value.num 1], [Value.num 2]] ∧
      out.length = ([[Value.num 3], [Value.num 1],
        [Value.num 2]] : List Record).length ∧
      out.Pairwise (fun a b => if true then numKeyD 0 a ≤ numKeyD 0 b
                    else numKeyD 0 b ≤ numKeyD 0 a) :=
  merge_sort_numeric_sorted _ 0 true (by
    intro r hr
    simp only [List.mem_cons, List.not_mem_nil, or_false] at hr
    rcases hr with rfl | rfl | rfl
    · exact ⟨3, rfl⟩
    · exact ⟨1, rfl⟩
    · exact ⟨2, rfl⟩)

/-- C8 is refuted: with the key index in the coerced set, a record whose
key is a non-numeric string next to a record whose key is a float makes
the post-coercion comparison mix a string with a float, which raises, and
`merge_sort` propagates the exception (`none`) instead of returning a
result. -/
theorem merge_sort_raises_cex :
    merge_sort [[Value.str "x", Value.str "y", Value.str "abc"],
                [Value.str "x", Value.str "y", Value.num 5]] 2 true = none := by
  rw [merge_sort_pair]
  have hc : takeLeft? 2 true [Value.str "x", Value.str "y", Value.str "abc"]
      [Value.str "x", Value.str "y", Value.num 5] = none := by decide
  simp [merge, hc]

/-- C8 amended witness: a concrete input whose key strings all fail
numeric parsing is still sorted to a result. -/
theorem merge_sort_failed_coercion_ok_witness :
    ∃ out, merge_sort [[Value.str "x", Value.str "y", Value.str "b"],
        [Value.str "x", Value.str "y", Value.str "a"]] 2 true = some out ∧
      out.Perm [[Value.str "x", Value.str "y", Value.str "b"],
        [Value.str "x", Value.str "y", Value.str "a"]] :=
  merge_sort_failed_coercion_ok _ 2 true (Or.inl rfl) (by
    intro r hr
    simp only [List.mem_cons, List.not_mem_nil, or_false] at hr
    rcases hr with rfl | rfl
    · exact ⟨"b", rfl, by decide⟩
    · exact ⟨"a", rfl, by decide⟩)

/-- C9 is refuted on 4-field statement records, where field 3 is the
description and not the amount: key index 3 is numerically coerced, so the
record with description "9" sorts before the one with description "10"
ascending, although natural string ordering puts "10" first. -/
theorem merge_sort_comparison_rule_cex :
    merge_sort [[Value.str "t", Value.str "D", Value.str "m", Value.str "9"],
        [Value.str "t", Value.str "D", Value.str "m", Value.str "10"]] 3 true =
      some [[Value.str "t", Value.str "D", Value.str "m", Value.str "9"],
        [Value.str "t", Value.str "D", Value.str "m", Value.str "10"]] ∧
    ("10" : String) < "9" ∧
    ([Value.str "t", Value.str "D", Value.str "m", Value.str "9"] : Record) ≠
      [Value.str "t", Value.str "D", Value.str "m", Value.str "10"] := by
  refine ⟨?_, ?_, by decide⟩
  · rw [merge_sort_pair]
    have hc : takeLeft? 3 true
        [Value.str "t", Value.str "D", Value.str "m", Value.str "9"]
        [Value.str "t", Value.str "D", Value.str "m", Value.str "10"] =
        some true := by decide
    simp [merge, hc]
  · rw [String.lt_iff_toList_lt]
    exact List.Lex.rel (by decide)

/-- C9 amended witness: both comparison regimes at concrete inputs — key
index 2 with numeric strings sorts by parsed value, key index 0 with
strings sorts lexicographically. -/
theorem merge_sort_comparison_rule_witness :
    (∃ out, merge_sort [[Value.str "x", Value.str "y", Value.str "2"],
        [Value.str "x", Value.str "y", Value.str "1"]] 2 true = some out ∧
      out.Perm [[Value.str "x", Value.str "y", Value.str "2"],
        [Value.str "x", Value.str "y", Value.str "1"]] ∧
      out.Pairwise (fun a b => if true then parsedKeyD 2 a ≤ parsedKeyD 2 b
                    else parsedKeyD 2 b ≤ parsedKeyD 2 a)) ∧
    (∃ out, merge_sort [[Value.str "b"], [Value.str "a"]] 0 true = some out ∧
      out.Perm [[Value.str "b"], [Value.str "a"]] ∧
      out.Pairwise (fun a b => if true then strKeyD 0 a ≤ strKeyD 0 b
                    else strKeyD 0 b ≤ strKeyD 0 a)) := by
  constructor
  · exact (merge_sort_comparison_rule 2 true).1 _ (Or.inl rfl) (by
      intro r hr
      simp only [List.mem_cons, List.not_mem_nil, or_false] at hr
      rcases hr with rfl | rfl
      · exact ⟨"2", 2, rfl, by decide⟩
      · exact ⟨"1", 1, rfl, by decide⟩)
  · exact (merge_sort_comparison_rule 0 true).2 _ (by decide) (by
      intro r hr
      simp only [List.mem_cons, List.not_mem_nil, or_false] at hr
      rcases hr with rfl | rfl
      · exact ⟨"b", rfl⟩
      · exact ⟨"a", rfl⟩)

/-! ## Witnesses for the ledger claims -/

/-- C4 amended witness: a negative deposit string and a successful
creation, both at concrete inputs. -/
theorem create_account_spec_witness :
    create_account initDB "alice" "pw" "-5" "t" =
      (initDB, .msg "Initial deposit cannot be negative.") ∧
    create_account initDB "alice" "pw" "100" "t" =
      ({ accounts := initDB.accounts ++ [⟨initDB.nextId, "alice", "pw", 100⟩],
         txns := initDB.txns ++ [⟨initDB.nextId, "Deposit", 100, "t",
           "Initial deposit on account creation"⟩],
         nextId := initDB.nextId + 1 }, .tru) := by
  constructor
  · exact (create_account_spec initDB "alice" "pw" "-5" "t").2.1 (-5)
      (by decide) (by norm_num)
  · exact (create_account_spec initDB "alice" "pw" "100" "t").2.2.2 100
      (by decide) (by norm_num) (by intro a ha; simp [initDB] at ha)

/-- C5 witness: withdrawing 20 against a stored balance of 10. -/
theorem withdraw_insufficient_funds_witness :
    handle_withdraw ⟨[⟨1, "u", "p", 10⟩], [], 2⟩ 1 "20" "t" =
      (⟨[⟨1, "u", "p", 10⟩], [], 2⟩, .insufficientFunds) :=
  withdraw_insufficient_funds _ 1 "20" "t" 20 (by decide) (by norm_num)
    ⟨⟨1, "u", "p", 10⟩, by simp, rfl⟩
    (by simp +decide [get_balance])

/-- C6 witness: a non-numeric amount string at a concrete store. -/
theorem invalid_amount_rejected_witness :
    (handle_deposit ⟨[⟨1, "u", "p", 10⟩], [], 2⟩ 1 "xyz" "t").1 =
      (⟨[⟨1, "u", "p", 10⟩], [], 2⟩ : DB) ∧
    (handle_deposit ⟨[⟨1, "u", "p", 10⟩], [], 2⟩ 1 "xyz" "t").2 ≠ TxOutcome.ok ∧
    (handle_withdraw ⟨[⟨1, "u", "p", 10⟩], [], 2⟩ 1 "xyz" "t").1 =
      (⟨[⟨1, "u", "p", 10⟩], [], 2⟩ : DB) ∧
    (handle_withdraw ⟨[⟨1, "u", "p", 10⟩], [], 2⟩ 1 "xyz" "t").2 ≠ TxOutcome.ok :=
  invalid_amount_rejected _ 1 "xyz" "t" (Or.inl (by decide))

/-- C7 witness: an unknown recipient and a self-transfer at a concrete
store. -/
theorem transfer_bad_recipient_rejected_witness :
    handle_transfer ⟨[⟨1, "u", "p", 10⟩], [], 2⟩ 1 "u" "ghost" "5" "t" =
      (⟨[⟨1, "u", "p", 10⟩], [], 2⟩, .recipientNotFound) ∧
    handle_transfer ⟨[⟨1, "u", "p", 10⟩], [], 2⟩ 1 "u" "u" "5" "t" =
      (⟨[⟨1, "u", "p", 10⟩], [], 2⟩, .selfTransfer) :=
  ⟨(transfer_bad_recipient_rejected ⟨[⟨1, "u", "p", 10⟩], [], 2⟩ 1 "u" "ghost"
      "5" "t" 5 (by decide) (by norm_num)).1
      (by simp +decide [get_account_id_by_username, pyStrip]),
   (transfer_bad_recipient_rejected ⟨[⟨1, "u", "p", 10⟩], [], 2⟩ 1 "u" "u"
      "5" "t" 5 (by decide) (by norm_num)).2
      (by simp +decide [get_account_id_by_username, pyStrip])⟩

/-- C10 witness: updating an absent id 7 leaves a concrete store intact. -/
theorem update_balance_unknown_id_witness :
    update_balance ⟨[⟨1, "u", "p", 5⟩], [], 2⟩ 7 3 =
      (⟨[⟨1, "u", "p", 5⟩], [], 2⟩ : DB) :=
  update_balance_unknown_id _ 7 3 (by
    intro a ha
    simp only [List.mem_cons, List.not_mem_nil, or_false] at ha
    subst ha
    decide)

end Banking
